import Mathlib

set_option maxRecDepth 100000

/-!
Verification development for the segmented write-ahead-log recorder
(`src/storage.rs`) and its resumable upload sync daemon (`src/sync.rs`).

The embedding works over byte streams modelled as `List Nat` (each element a
byte value), machine integers as `Nat` with explicit `% 2 ^ w` truncation
where the Rust code casts, and fallible operations as `Except`/`Option`.
Filesystem contents are modelled explicitly: a `Storage` value carries the
bytes of every `segment-{N}.log` file as a function `Nat → List Nat` and the
bytes of the `.checkpoint` file as an `Option (List Nat)`.

The record metadata blob is produced in the source by
`serde_json::to_string(&RecordFrame)`; the embedding implements that exact
compact encoding (declaration-order fields, serde string escaping, decimal
integers) and a parser for it, modelling `serde_json::from_slice` on the
canonical format the writer emits.
-/

/-! ## Byte-level primitives -/

/-- Little-endian 4-byte encoding of a `u32` value, as in
`u32::to_le_bytes`; values are truncated modulo `2 ^ 32` as the Rust `as u32`
casts do. -/
def leBytes4 (n : Nat) : List Nat :=
  [n % 256, n / 256 % 256, n / 65536 % 256, n / 16777216 % 256]

/-- Little-endian reading of (up to) 4 bytes into a `u32` value, as in
`u32::from_le_bytes`. -/
def leU32 (bs : List Nat) : Nat :=
  match bs with
  | [a, b, c, d] => a + 256 * b + 65536 * c + 16777216 * d
  | _ => 0

theorem leBytes4_length (n : Nat) : (leBytes4 n).length = 4 := by
  simp [leBytes4]

theorem leU32_leBytes4 (n : Nat) : leU32 (leBytes4 n) = n % 4294967296 := by
  simp only [leBytes4, leU32]
  omega

/-! ## CRC-32 (IEEE, the `crc32fast::hash` polynomial) -/

/-- One bit step of the reflected CRC-32 algorithm: shift right, XOR the
polynomial 0xEDB88320 when the low bit was set. -/
def crcStep (c : Nat) : Nat :=
  if c % 2 = 1 then (c / 2) ^^^ 0xEDB88320 else c / 2

/-- Fold one byte into the running CRC: XOR into the low 8 bits, then 8 bit
steps. -/
def crcByte (c b : Nat) : Nat :=
  crcStep^[8] (c ^^^ (b % 256))

/-- CRC-32 of a byte list, as `crc32fast::hash` computes it: initial value
0xFFFFFFFF, final XOR with 0xFFFFFFFF. -/
def crc32 (bs : List Nat) : Nat :=
  (bs.foldl crcByte 0xFFFFFFFF) ^^^ 0xFFFFFFFF

/-! ## serde_json string escaping (byte level)

`serde_json` escapes `"` and `\`, writes the short escapes for the control
characters BS HT LF FF CR, and `\u00XX` (lowercase hex) for the remaining
bytes below 0x20; every other byte of the UTF-8 text is emitted literally.
Viewed at byte granularity this is a per-byte map, since all bytes of a
multi-byte UTF-8 scalar are ≥ 0x80 and pass through unescaped. -/

/-- Lowercase hex digit byte for a value below 16, as serde_json emits in
`\u00XX` escapes. -/
def hexDigit (v : Nat) : Nat :=
  if v < 10 then v + 48 else v + 87

/-- Numeric value of a hex digit byte (accepting both cases), `none` for a
non-hex byte. -/
def hexVal (d : Nat) : Option Nat :=
  if 48 ≤ d ∧ d ≤ 57 then some (d - 48)
  else if 97 ≤ d ∧ d ≤ 102 then some (d - 87)
  else if 65 ≤ d ∧ d ≤ 70 then some (d - 55)
  else none

/-- serde_json escaping of a single byte of JSON string content. -/
def escByte (b : Nat) : List Nat :=
  if b = 34 then [92, 34]
  else if b = 92 then [92, 92]
  else if b = 8 then [92, 98]
  else if b = 9 then [92, 116]
  else if b = 10 then [92, 110]
  else if b = 12 then [92, 102]
  else if b = 13 then [92, 114]
  else if b < 32 then [92, 117, 48, 48, hexDigit (b / 16), hexDigit (b % 16)]
  else [b]

/-- serde_json escaping of a whole string body (byte list). -/
def escStr : List Nat → List Nat
  | [] => []
  | b :: bs => escByte b ++ escStr bs

/-- Fuel-indexed parser for the body of a JSON string, consuming the closing
quote; returns the unescaped bytes and the remaining input. The fuel only
needs to be at least the input length. -/
def parseStrF : Nat → List Nat → Option (List Nat × List Nat)
  | 0, _ => none
  | _ + 1, [] => none
  | fuel + 1, b :: rest =>
    if b = 34 then some ([], rest)
    else if b = 92 then
      match rest with
      | [] => none
      | c :: rest2 =>
        if c = 34 then (parseStrF fuel rest2).map fun p => (34 :: p.1, p.2)
        else if c = 92 then (parseStrF fuel rest2).map fun p => (92 :: p.1, p.2)
        else if c = 98 then (parseStrF fuel rest2).map fun p => (8 :: p.1, p.2)
        else if c = 116 then (parseStrF fuel rest2).map fun p => (9 :: p.1, p.2)
        else if c = 110 then (parseStrF fuel rest2).map fun p => (10 :: p.1, p.2)
        else if c = 102 then (parseStrF fuel rest2).map fun p => (12 :: p.1, p.2)
        else if c = 114 then (parseStrF fuel rest2).map fun p => (13 :: p.1, p.2)
        else if c = 117 then
          match rest2 with
          | h1 :: h2 :: h3 :: h4 :: rest3 =>
            match hexVal h1, hexVal h2, hexVal h3, hexVal h4 with
            | some v1, some v2, some v3, some v4 =>
              (parseStrF fuel rest3).map fun p =>
                ((((v1 * 16 + v2) * 16 + v3) * 16 + v4) :: p.1, p.2)
            | _, _, _, _ => none
          | _ => none
        else none
    else (parseStrF fuel rest).map fun p => (b :: p.1, p.2)

/-- Parse a JSON string body up to and including the closing quote. -/
def parseStr (s : List Nat) : Option (List Nat × List Nat) :=
  parseStrF s.length s

/-! ## Decimal integers -/

/-- Little-endian decimal digits of `n`, with fuel (any fuel ≥ `n`
suffices). -/
def decDigitsF : Nat → Nat → List Nat
  | 0, _ => []
  | _ + 1, 0 => []
  | f + 1, n + 1 => ((n + 1) % 10) :: decDigitsF f ((n + 1) / 10)

/-- Decimal ASCII encoding of a natural number, as serde_json prints
unsigned integers. -/
def natDec (n : Nat) : List Nat :=
  if n = 0 then [48] else (decDigitsF n n).reverse.map (fun d => d + 48)

/-- Whether a byte is an ASCII decimal digit. -/
def isDigit (b : Nat) : Bool :=
  decide (48 ≤ b ∧ b ≤ 57)

/-- Parse a nonempty run of decimal digits into a natural number, returning
the remaining input. -/
def parseNat (s : List Nat) : Option (Nat × List Nat) :=
  let ds := s.takeWhile isDigit
  if ds = [] then none
  else some (ds.foldl (fun a d => a * 10 + (d - 48)) 0, s.dropWhile isDigit)

/-- Expect a literal byte sequence at the head of the input; return the rest
on a match. -/
def dropLit : List Nat → List Nat → Option (List Nat)
  | [], s => some s
  | _ :: _, [] => none
  | l :: ls, b :: bs => if b = l then dropLit ls bs else none

/-! ## The record frame (`RecordFrame` in `src/storage.rs`)

Metadata field literals of the compact serde_json encoding of the
`RecordFrame` struct, in declaration order. Each is the ASCII byte list of
the corresponding piece of JSON text. -/

/-- ASCII bytes of the text `(open brace)"magic":`. -/
def litMagic : List Nat := [123, 34, 109, 97, 103, 105, 99, 34, 58]

/-- ASCII bytes of the text `,"timestamp":`. -/
def litTimestamp : List Nat := [44, 34, 116, 105, 109, 101, 115, 116, 97, 109, 112, 34, 58]

/-- ASCII bytes of the text `,"topic":"`. -/
def litTopic : List Nat := [44, 34, 116, 111, 112, 105, 99, 34, 58, 34]

/-- ASCII bytes of the text `,"namespace":"`. -/
def litNamespace : List Nat := [44, 34, 110, 97, 109, 101, 115, 112, 97, 99, 101, 34, 58, 34]

/-- ASCII bytes of the text `,"payload_len":`. -/
def litPayloadLen : List Nat := [44, 34, 112, 97, 121, 108, 111, 97, 100, 95, 108, 101, 110, 34, 58]

/-- ASCII bytes of the text `,"payload_crc32":`. -/
def litPayloadCrc : List Nat := [44, 34, 112, 97, 121, 108, 111, 97, 100, 95, 99, 114, 99, 51, 50, 34, 58]

/-- ASCII bytes of the text `(open brace)"current_segment":`. -/
def litCurrentSegment : List Nat :=
  [123, 34, 99, 117, 114, 114, 101, 110, 116, 95, 115, 101, 103, 109, 101, 110, 116, 34, 58]

/-- The frame magic `0xDEADBEEF` (`RECORD_FRAME_HEADER`). -/
def RECORD_FRAME_HEADER : Nat := 0xDEADBEEF

/-- The hardcoded segment size bound `MAX_SEGMENT_SIZE = 16 * 1024 * 1024`. -/
def MAX_SEGMENT_SIZE : Nat := 16 * 1024 * 1024

/-- The `RecordFrame` metadata struct of `src/storage.rs`. `topic` and
`nspace` (the source's `namespace` field, renamed because `namespace` is a
Lean keyword) are the UTF-8 bytes of the Rust strings; the integer fields
are `u32`/`u128` values carried as `Nat`. -/
structure RecordFrame where
  magic : Nat
  timestamp : Nat
  topic : List Nat
  nspace : List Nat
  payload_len : Nat
  payload_crc32 : Nat
  deriving Repr, DecidableEq

/-- The compact serde_json serialization of a `RecordFrame`
(`serde_json::to_string(&self)` in `RecordFrame::to_bytes`): fields in
declaration order, strings escaped, integers in decimal. -/
def metaEncode (f : RecordFrame) : List Nat :=
  litMagic ++ natDec f.magic ++ litTimestamp ++ natDec f.timestamp
    ++ litTopic ++ escStr f.topic ++ [34]
    ++ litNamespace ++ escStr f.nspace ++ [34]
    ++ litPayloadLen ++ natDec f.payload_len
    ++ litPayloadCrc ++ natDec f.payload_crc32 ++ [125]

/-- Parser for the canonical serde_json serialization of a `RecordFrame`,
modelling `serde_json::from_slice::<RecordFrame>` in
`RecordFrame::from_reader` on the format that `to_bytes` emits (the whole
input must be consumed, as `from_slice` requires). -/
def metaFromBytes (s : List Nat) : Option RecordFrame :=
  match dropLit litMagic s with
  | none => none
  | some s =>
  match parseNat s with
  | none => none
  | some (m, s) =>
  match dropLit litTimestamp s with
  | none => none
  | some s =>
  match parseNat s with
  | none => none
  | some (ts, s) =>
  match dropLit litTopic s with
  | none => none
  | some s =>
  match parseStr s with
  | none => none
  | some (t, s) =>
  match dropLit litNamespace s with
  | none => none
  | some s =>
  match parseStr s with
  | none => none
  | some (ns, s) =>
  match dropLit litPayloadLen s with
  | none => none
  | some s =>
  match parseNat s with
  | none => none
  | some (pl, s) =>
  match dropLit litPayloadCrc s with
  | none => none
  | some s =>
  match parseNat s with
  | none => none
  | some (crc, s) =>
  match dropLit [125] s with
  | none => none
  | some s =>
  if s = [] then some ⟨m, ts, t, ns, pl, crc⟩ else none

/-- `RecordFrame::to_bytes`: magic (u32 LE), metadata length (u32 LE, the
`as u32` cast truncating modulo `2 ^ 32`), metadata JSON, then the payload
bytes. -/
def RecordFrame.to_bytes (f : RecordFrame) (payload : List Nat) : List Nat :=
  leBytes4 f.magic ++ leBytes4 ((metaEncode f).length % 4294967296)
    ++ metaEncode f ++ payload

/-- Decode errors of `RecordFrame::from_reader` / `Storage::replay_segment`.
In the source all are `anyhow` errors: the truncation cases are the
`read_exact` I/O errors after a valid magic, `metaDecode` is the serde_json
failure, `crcMismatch` is the explicit payload-CRC error. -/
inductive DecodeErr where
  | truncatedLen
  | truncatedMeta
  | truncatedPayload
  | metaDecode
  | crcMismatch (expected actual : Nat)
  deriving Repr, DecidableEq

/-- `RecordFrame::from_reader`: a failed `read_exact` of the 4 magic bytes
(end of file, including 1–3 leftover bytes) yields `none`; a magic word
other than `0xDEADBEEF` yields `none`; afterwards every short read is an
error, the metadata must deserialize, and the payload CRC must match. On
success the frame, payload, and the unconsumed remainder of the stream are
returned. -/
def from_reader (s : List Nat) :
    Except DecodeErr (Option (RecordFrame × List Nat × List Nat)) :=
  if s.length < 4 then .ok none
  else
    let magic := leU32 (s.take 4)
    let s1 := s.drop 4
    if magic ≠ RECORD_FRAME_HEADER then .ok none
    else if s1.length < 4 then .error .truncatedLen
    else
      let metaLen := leU32 (s1.take 4)
      let s2 := s1.drop 4
      if s2.length < metaLen then .error .truncatedMeta
      else
        match metaFromBytes (s2.take metaLen) with
        | none => .error .metaDecode
        | some frame =>
          let s3 := s2.drop metaLen
          if s3.length < frame.payload_len then .error .truncatedPayload
          else
            let payload := s3.take frame.payload_len
            let crc := crc32 payload
            if crc ≠ frame.payload_crc32 then
              .error (.crcMismatch frame.payload_crc32 crc)
            else .ok (some (frame, payload, s3.drop frame.payload_len))

deriving instance DecidableEq for Except

/-- A replayed record, as `Storage::replay_segment` returns it:
`(topic, namespace, timestamp, payload)`. -/
abbrev OutRec := List Nat × List Nat × Nat × List Nat

/-- Fuel-indexed replay loop: repeatedly decode frames until `from_reader`
returns `none`, propagating errors. Fuel at least `length + 1` suffices,
since every decoded frame consumes at least the 4 magic bytes. -/
def replayAux : Nat → List Nat → Except DecodeErr (List OutRec)
  | 0, _ => .ok []
  | fuel + 1, s =>
    match from_reader s with
    | .error e => .error e
    | .ok none => .ok []
    | .ok (some (f, payload, rest)) =>
      match replayAux fuel rest with
      | .error e => .error e
      | .ok recs => .ok ((f.topic, f.nspace, f.timestamp, payload) :: recs)

/-- `Storage::replay_segment` over the byte contents of one segment file. -/
def replay_segment (s : List Nat) : Except DecodeErr (List OutRec) :=
  replayAux (s.length + 1) s

/-! ## The log store (`Storage` in `src/storage.rs`)

The filesystem under the log root is part of the state: `files n` holds the
byte contents of `segment-{n}.log` (absent files read as `[]`, matching the
create-on-open behaviour of the append path), and `checkpoint` holds the
contents of `.checkpoint` when that file exists. -/

/-- The log store state: the mutex-guarded `StorageInner` fields together
with the on-disk bytes they govern. -/
structure Storage where
  current_segment : Nat
  current_segment_size : Nat
  files : Nat → List Nat
  checkpoint : Option (List Nat)

/-- The bytes `Storage::write_checkpoint` puts in `.checkpoint`:
`serde_json::json!` serializes its map with sorted keys, so the text is
`(open brace)"current_segment":SEG,"timestamp":NOW(close brace)`. -/
def checkpointBytes (segment now : Nat) : List Nat :=
  litCurrentSegment ++ natDec segment ++ litTimestamp ++ natDec now ++ [125]

/-- `Storage::rotate_segment`: write a checkpoint naming the *current*
(pre-increment) segment, increment `current_segment`, reset the size
counter, and `File::create` the new segment file (which truncates it). The
`now` argument is the wall-clock millisecond timestamp the source reads from
`SystemTime::now()`. -/
def rotate_segment (now : Nat) (st : Storage) : Storage :=
  { current_segment := st.current_segment + 1
    current_segment_size := 0
    files := fun i => if i = st.current_segment + 1 then [] else st.files i
    checkpoint := some (checkpointBytes st.current_segment now) }

/-- `Storage::append_record`: rotate first when
`current_segment_size + payload.len() + 100` exceeds `MAX_SEGMENT_SIZE`
(note the projection uses the *payload* length, not the encoded frame
length), then build the frame (CRC over the payload, `payload_len` as a
`u32` cast) and append its bytes to `segment-{current_segment}.log`,
finally growing the size counter by the full frame length. -/
def append_record (st : Storage) (topic nspace payload : List Nat)
    (ts now : Nat) : Storage :=
  let st :=
    if st.current_segment_size + payload.length + 100 > MAX_SEGMENT_SIZE then
      rotate_segment now st
    else st
  let frame : RecordFrame :=
    { magic := RECORD_FRAME_HEADER, timestamp := ts, topic := topic
      nspace := nspace, payload_len := payload.length % 4294967296
      payload_crc32 := crc32 payload }
  let fd := frame.to_bytes payload
  { st with
    files := fun i =>
      if i = st.current_segment then st.files i ++ fd else st.files i
    current_segment_size := st.current_segment_size + fd.length }

/-! ## Checkpoint recovery (`Storage::recover_checkpoint` / `Storage::new`)

`recover_checkpoint` feeds the `.checkpoint` text through
`serde_json::from_str::<Value>`, indexes `["current_segment"]` (which is
`Null` on a missing key or a non-object document) and takes
`.as_u64().unwrap_or(0)`. The JSON document parser below models
`serde_json::from_str` for top-level objects whose values are unsigned
integers, and for top-level integers, strings, booleans and null; this
covers every checkpoint the system itself writes. -/

/-- JSON whitespace. -/
def isWs (b : Nat) : Bool :=
  decide (b = 32 ∨ b = 9 ∨ b = 10 ∨ b = 13)

/-- Drop leading JSON whitespace. -/
def skipWs (s : List Nat) : List Nat :=
  s.dropWhile isWs

/-- A parsed checkpoint-level JSON document. -/
inductive CkVal where
  | obj (kvs : List (List Nat × Nat))
  | num (n : Nat)
  | str (s : List Nat)
  | boolean (b : Bool)
  | nullv
  deriving Repr, DecidableEq

/-- Parse the field list of a JSON object (after the opening brace and any
whitespace, first field onward). Fuel at least the input length suffices. -/
def parseFieldsF : Nat → List Nat → Option (List (List Nat × Nat) × List Nat)
  | 0, _ => none
  | fuel + 1, s =>
    match s with
    | 34 :: s1 =>
      match parseStr s1 with
      | none => none
      | some (key, s2) =>
        match skipWs s2 with
        | 58 :: s3 =>
          match parseNat (skipWs s3) with
          | none => none
          | some (v, s4) =>
            match skipWs s4 with
            | 44 :: s5 =>
              match parseFieldsF fuel (skipWs s5) with
              | some (kvs, rest) => some ((key, v) :: kvs, rest)
              | none => none
            | 125 :: s5 => some ([(key, v)], s5)
            | _ => none
        | _ => none
    | _ => none

/-- ASCII bytes of `true`. -/
def litTrue : List Nat := [116, 114, 117, 101]

/-- ASCII bytes of `false`. -/
def litFalse : List Nat := [102, 97, 108, 115, 101]

/-- ASCII bytes of `null`. -/
def litNull : List Nat := [110, 117, 108, 108]

/-- Parse a whole checkpoint JSON document (the full input must be consumed
up to trailing whitespace, as `serde_json::from_str` requires). -/
def parseCkTop (s : List Nat) : Option CkVal :=
  match skipWs s with
  | 123 :: s1 =>
    match skipWs s1 with
    | 125 :: s2 => if skipWs s2 = [] then some (.obj []) else none
    | s1' =>
      match parseFieldsF s1'.length s1' with
      | some (kvs, rest) => if skipWs rest = [] then some (.obj kvs) else none
      | none => none
  | 34 :: s1 =>
    match parseStr s1 with
    | some (t, rest) => if skipWs rest = [] then some (.str t) else none
    | none => none
  | s' =>
    match parseNat s' with
    | some (n, rest) => if skipWs rest = [] then some (.num n) else none
    | none =>
      match dropLit litTrue s' with
      | some rest => if skipWs rest = [] then some (.boolean true) else none
      | none =>
        match dropLit litFalse s' with
        | some rest => if skipWs rest = [] then some (.boolean false) else none
        | none =>
          match dropLit litNull s' with
          | some rest => if skipWs rest = [] then some CkVal.nullv else none
          | none => none

/-- ASCII bytes of the key `current_segment`. -/
def keyCurrentSegment : List Nat :=
  [99, 117, 114, 114, 101, 110, 116, 95, 115, 101, 103, 109, 101, 110, 116]

/-- Look a key up in a parsed object; on duplicate keys the last occurrence
wins, as in the `serde_json` map. -/
def ckLookup (kvs : List (List Nat × Nat)) (key : List Nat) : Option Nat :=
  (kvs.reverse.find? (fun kv => decide (kv.1 = key))).map (fun kv => kv.2)

/-- `Storage::recover_checkpoint`: an absent `.checkpoint` recovers segment
0; unparseable contents are a propagated error (the `?` on
`serde_json::from_str`); a parsed document yields
`value["current_segment"].as_u64().unwrap_or(0)` — 0 when the key is
missing, the document is not an object, or the value exceeds `u64::MAX`. -/
def recover_checkpoint : Option (List Nat) → Except Unit Nat
  | none => .ok 0
  | some bytes =>
    match parseCkTop bytes with
    | none => .error ()
    | some (.obj kvs) =>
      match ckLookup kvs keyCurrentSegment with
      | some n => .ok (if n < 18446744073709551616 then n else 0)
      | none => .ok 0
    | some _ => .ok 0

/-- `Storage::new` over a root whose `.checkpoint` contents are `cp` and
whose segment files are `files`: recovery errors propagate out of
construction; otherwise the store starts at the recovered segment with
`current_segment_size = 0`. -/
def storageNew (cp : Option (List Nat)) (files : Nat → List Nat) :
    Except Unit Storage :=
  (recover_checkpoint cp).map fun n =>
    { current_segment := n, current_segment_size := 0
      files := files, checkpoint := cp }

/-- A fresh log root: no checkpoint, no segment data. -/
def freshStorage : Storage :=
  { current_segment := 0, current_segment_size := 0
    files := fun _ => [], checkpoint := none }

/-! ## Interleavings of the public mutating operations -/

/-- One public mutating call on the log store (the mutex serializes them). -/
inductive StorageOp where
  | append (topic nspace payload : List Nat) (ts now : Nat)
  | rotate (now : Nat)

/-- Run one operation. -/
def runOp (st : Storage) : StorageOp → Storage
  | .append t n p ts now => append_record st t n p ts now
  | .rotate now => rotate_segment now st

/-- Run a sequence of operations in order. -/
def runOps (ops : List StorageOp) (st : Storage) : Storage :=
  ops.foldl runOp st

/-! ## The sync daemon (`src/sync.rs`)

File reads are modelled by a read function from path bytes to optional file
contents (`none` models a failing `tokio::fs::read`). SHA-256 fingerprints
are carried as uninterpreted byte lists; no claim depends on their values. -/

/-- `UploadedChunk` of `src/sync.rs`. -/
structure UploadedChunk where
  chunk_index : Nat
  chunk_size : Nat
  sha256 : List Nat
  upload_id : Option (List Nat)
  deriving Repr, DecidableEq

/-- `UploadState` of `src/sync.rs`; `segment_path` is the path string's
bytes. -/
structure UploadState where
  segment_path : List Nat
  segment_sha256 : List Nat
  chunks_uploaded : List UploadedChunk
  timestamp : Nat
  deriving Repr, DecidableEq

/-- `SyncStatus` of `src/sync.rs`. -/
structure SyncStatus where
  is_syncing : Bool
  last_sync_time : Option Nat
  upload_errors : Nat
  total_segments_synced : Nat
  deriving Repr, DecidableEq

/-- Fuel-indexed chunk splitting; fuel at least the data length suffices. -/
def chunksOfF (size : Nat) : Nat → List Nat → List (List Nat)
  | 0, _ => []
  | _ + 1, [] => []
  | fuel + 1, data => data.take size :: chunksOfF size fuel (data.drop size)

/-- `data.chunks(chunk_size)` over a byte list: dense zero-based fixed-size
chunks, the last possibly short. (Rust panics on `chunk_size = 0`; the model
returns `[]` there and no claim exercises it.) -/
def chunksOf (size : Nat) (data : List Nat) : List (List Nat) :=
  if size = 0 then [] else chunksOfF size data.length data

/-- `SyncDaemon::mock_upload_chunk`: the remote upload primitive of the
reference source, which always succeeds. -/
def mock_upload_chunk (_idx : Nat) (_chunk : List Nat) : Except Unit Unit :=
  .ok ()

/-- The per-chunk upload loop of `process_next_upload`: upload every chunk
in order, counting the uploads performed, aborting on the first error. -/
def uploadAll : List (List Nat) → Nat → Except Unit Nat
  | [], k => .ok k
  | c :: cs, k =>
    match mock_upload_chunk k c with
    | .error e => .error e
    | .ok () => uploadAll cs (k + 1)

/-- `SyncDaemon::process_next_upload`: an empty queue returns `Ok`
untouched; otherwise the head is removed from the queue *before* any I/O
(`queue.remove(0)`), the segment file is read (a failing read propagates
with the head already gone), the data is split into chunks, and every chunk
is uploaded — `chunks_uploaded` is never consulted or updated. Returns the
call's result, the queue afterwards, and the number of chunk uploads
performed. -/
def process_next_upload (fsread : List Nat → Option (List Nat))
    (chunk_size : Nat) (queue : List UploadState) :
    Except Unit Unit × List UploadState × Nat :=
  match queue with
  | [] => (.ok (), [], 0)
  | state :: rest =>
    match fsread state.segment_path with
    | none => (.error (), rest, 0)
    | some data =>
      match uploadAll (chunksOf chunk_size data) 0 with
      | .error e => (.error e, rest, 0)
      | .ok k => (.ok (), rest, k)

/-- The backoff computation of `SyncDaemon::sync_loop`:
`2_u64.min((max_retries as u64).saturating_mul(2)).min(120)` — note the
receiver of the first `min` is the constant 2. -/
def backoff_secs (max_retries : Nat) : Nat :=
  min (min 2 (min (max_retries * 2) 18446744073709551615)) 120

/-- One iteration of `SyncDaemon::sync_loop`: given the queue, status,
and current `max_retries` budget, produce the new queue, status, budget and
the seconds slept this iteration (5 on an idle poll, the backoff after a
failure, 0 after a success). -/
def sync_step (fsread : List Nat → Option (List Nat)) (chunk_size now : Nat)
    (queue : List UploadState) (status : SyncStatus) (max_retries : Nat) :
    List UploadState × SyncStatus × Nat × Nat :=
  if queue = [] then
    (queue, { status with is_syncing := false }, max_retries, 5)
  else
    let status := { status with is_syncing := true }
    match process_next_upload fsread chunk_size queue with
    | (.ok (), queue', _) =>
      (queue',
       { status with
         total_segments_synced := status.total_segments_synced + 1
         last_sync_time := some now },
       7, 0)
    | (.error (), queue', _) =>
      let status := { status with upload_errors := status.upload_errors + 1 }
      let sleep := backoff_secs max_retries
      let m := max_retries - 1
      (queue', status, if m = 0 then 7 else m, sleep)

/-! ## Codec roundtrip lemmas -/

theorem dropLit_append (lit s : List Nat) : dropLit lit (lit ++ s) = some s := by
  induction lit with
  | nil => rfl
  | cons l ls ih => simp [dropLit, ih]

theorem takeWhile_append_cons (p : Nat → Bool) (l₁ : List Nat) (b : Nat)
    (l₂ : List Nat) (h1 : ∀ x ∈ l₁, p x = true) (hb : p b = false) :
    (l₁ ++ b :: l₂).takeWhile p = l₁ := by
  induction l₁ with
  | nil => simp [List.takeWhile, hb]
  | cons x xs ih =>
    have hx : p x = true := h1 x (by simp)
    simp only [List.cons_append, List.takeWhile_cons, hx, if_true]
    rw [ih (fun y hy => h1 y (by simp [hy]))]

theorem dropWhile_append_cons (p : Nat → Bool) (l₁ : List Nat) (b : Nat)
    (l₂ : List Nat) (h1 : ∀ x ∈ l₁, p x = true) (hb : p b = false) :
    (l₁ ++ b :: l₂).dropWhile p = b :: l₂ := by
  induction l₁ with
  | nil => simp [List.dropWhile, hb]
  | cons x xs ih =>
    have hx : p x = true := h1 x (by simp)
    simp only [List.cons_append, List.dropWhile_cons, hx, if_true]
    exact ih (fun y hy => h1 y (by simp [hy]))

/-- Little-endian decimal value of a digit list. -/
def ofDigLE (l : List Nat) : Nat :=
  l.foldr (fun d a => d + 10 * a) 0

theorem decDigitsF_val (f : Nat) : ∀ n, n ≤ f → ofDigLE (decDigitsF f n) = n := by
  induction f with
  | zero => intro n hn; interval_cases n; rfl
  | succ f ih =>
    intro n hn
    match n with
    | 0 => rfl
    | n + 1 =>
      have hdiv : (n + 1) / 10 ≤ f := by
        have := Nat.div_le_self (n + 1) 10
        have h10 : (n + 1) / 10 < n + 1 := Nat.div_lt_self (Nat.succ_pos n) (by norm_num)
        omega
      simp only [decDigitsF, ofDigLE, List.foldr_cons]
      have := ih ((n + 1) / 10) hdiv
      simp only [ofDigLE] at this
      rw [this]
      omega

theorem decDigitsF_lt10 (f : Nat) : ∀ n d, d ∈ decDigitsF f n → d < 10 := by
  induction f with
  | zero => intro n d hd; simp [decDigitsF] at hd
  | succ f ih =>
    intro n d hd
    match n with
    | 0 => simp [decDigitsF] at hd
    | n + 1 =>
      simp only [decDigitsF, List.mem_cons] at hd
      rcases hd with h | h
      · subst h; exact Nat.mod_lt _ (by norm_num)
      · exact ih _ _ h

theorem natDec_isDigit (n : Nat) : ∀ b ∈ natDec n, isDigit b = true := by
  intro b hb
  simp only [natDec] at hb
  split at hb
  · simp at hb; subst hb; decide
  · simp only [List.mem_map, List.mem_reverse] at hb
    obtain ⟨d, hd, rfl⟩ := hb
    have := decDigitsF_lt10 n n d hd
    simp [isDigit]; omega

theorem natDec_ne_nil (n : Nat) : natDec n ≠ [] := by
  simp only [natDec]
  split
  · simp
  · next h =>
    match hn : n, h with
    | m + 1, _ => simp [decDigitsF]

theorem parseNat_natDec (n b : Nat) (rest : List Nat)
    (hb : isDigit b = false) :
    parseNat (natDec n ++ b :: rest) = some (n, b :: rest) := by
  have htake := takeWhile_append_cons isDigit (natDec n) b rest (natDec_isDigit n) hb
  have hdrop := dropWhile_append_cons isDigit (natDec n) b rest (natDec_isDigit n) hb
  have hfold : (natDec n).foldl (fun a d => a * 10 + (d - 48)) 0 = n := by
    simp only [natDec]
    split
    · next h => subst h; rfl
    · rw [List.foldl_map, List.foldl_reverse]
      have hsimp : ∀ (l : List Nat), (∀ d ∈ l, d < 10) →
          l.foldr (fun x y => y * 10 + (x + 48 - 48)) 0 = ofDigLE l := by
        intro l
        induction l with
        | nil => intro _; rfl
        | cons d ds ih =>
          intro hall
          simp only [List.foldr_cons, ofDigLE] at *
          rw [ih (fun x hx => hall x (by simp [hx]))]
          omega
      rw [hsimp _ (decDigitsF_lt10 n n)]
      exact decDigitsF_val n n le_rfl
  simp [parseNat, htake, hdrop, natDec_ne_nil n, hfold]

theorem hexVal_hexDigit (v : Nat) (hv : v < 16) : hexVal (hexDigit v) = some v := by
  interval_cases v <;> decide

theorem parseStrF_escStr (t : List Nat) : ∀ (fuel : Nat) (rest : List Nat),
    (escStr t ++ 34 :: rest).length ≤ fuel →
    parseStrF fuel (escStr t ++ 34 :: rest) = some (t, rest) := by
  induction t with
  | nil =>
    intro fuel rest hf
    simp only [escStr, List.nil_append, List.length_cons] at hf ⊢
    obtain ⟨f, rfl⟩ : ∃ f, fuel = f + 1 := ⟨fuel - 1, by omega⟩
    simp [parseStrF]
  | cons b bs ih =>
    intro fuel rest hf
    have hesc : escStr (b :: bs) ++ 34 :: rest
        = escByte b ++ (escStr bs ++ 34 :: rest) := by
      simp [escStr, List.append_assoc]
    rw [hesc] at hf ⊢
    by_cases h34 : b = 34
    · subst h34
      have he : escByte 34 = [92, 34] := rfl
      rw [he] at hf ⊢
      simp only [List.cons_append, List.nil_append, List.length_cons] at hf
      obtain ⟨f, rfl⟩ : ∃ f, fuel = f + 1 := ⟨fuel - 1, by omega⟩
      simp [parseStrF, ih f rest (by omega)]
    · by_cases h92 : b = 92
      · subst h92
        have he : escByte 92 = [92, 92] := rfl
        rw [he] at hf ⊢
        simp only [List.cons_append, List.nil_append, List.length_cons] at hf
        obtain ⟨f, rfl⟩ : ∃ f, fuel = f + 1 := ⟨fuel - 1, by omega⟩
        simp [parseStrF, ih f rest (by omega)]
      · by_cases h8 : b = 8
        · subst h8
          have he : escByte 8 = [92, 98] := rfl
          rw [he] at hf ⊢
          simp only [List.cons_append, List.nil_append, List.length_cons] at hf
          obtain ⟨f, rfl⟩ : ∃ f, fuel = f + 1 := ⟨fuel - 1, by omega⟩
          simp [parseStrF, ih f rest (by omega)]
        · by_cases h9 : b = 9
          · subst h9
            have he : escByte 9 = [92, 116] := rfl
            rw [he] at hf ⊢
            simp only [List.cons_append, List.nil_append, List.length_cons] at hf
            obtain ⟨f, rfl⟩ : ∃ f, fuel = f + 1 := ⟨fuel - 1, by omega⟩
            simp [parseStrF, ih f rest (by omega)]
          · by_cases h10 : b = 10
            · subst h10
              have he : escByte 10 = [92, 110] := rfl
              rw [he] at hf ⊢
              simp only [List.cons_append, List.nil_append, List.length_cons] at hf
              obtain ⟨f, rfl⟩ : ∃ f, fuel = f + 1 := ⟨fuel - 1, by omega⟩
              simp [parseStrF, ih f rest (by omega)]
            · by_cases h12 : b = 12
              · subst h12
                have he : escByte 12 = [92, 102] := rfl
                rw [he] at hf ⊢
                simp only [List.cons_append, List.nil_append, List.length_cons] at hf
                obtain ⟨f, rfl⟩ : ∃ f, fuel = f + 1 := ⟨fuel - 1, by omega⟩
                simp [parseStrF, ih f rest (by omega)]
              · by_cases h13 : b = 13
                · subst h13
                  have he : escByte 13 = [92, 114] := rfl
                  rw [he] at hf ⊢
                  simp only [List.cons_append, List.nil_append, List.length_cons] at hf
                  obtain ⟨f, rfl⟩ : ∃ f, fuel = f + 1 := ⟨fuel - 1, by omega⟩
                  simp [parseStrF, ih f rest (by omega)]
                · by_cases hlt : b < 32
                  · -- the \u00XX escape
                    have he : escByte b
                        = [92, 117, 48, 48, hexDigit (b / 16), hexDigit (b % 16)] := by
                      simp [escByte, h34, h92, h8, h9, h10, h12, h13, hlt]
                    rw [he] at hf ⊢
                    simp only [List.cons_append, List.nil_append, List.length_cons] at hf
                    obtain ⟨f, rfl⟩ : ∃ f, fuel = f + 1 := ⟨fuel - 1, by omega⟩
                    have hv1 : hexVal (hexDigit (b / 16)) = some (b / 16) :=
                      hexVal_hexDigit _ (by omega)
                    have hv2 : hexVal (hexDigit (b % 16)) = some (b % 16) :=
                      hexVal_hexDigit _ (by omega)
                    have hv0 : hexVal 48 = some 0 := rfl
                    have hval : ((0 * 16 + 0) * 16 + b / 16) * 16 + b % 16 = b := by
                      omega
                    simp [parseStrF, hv0, hv1, hv2, ih f rest (by omega), hval]
                    omega
                  · -- literal byte
                    have he : escByte b = [b] := by
                      simp [escByte, h34, h92, h8, h9, h10, h12, h13, hlt]
                    rw [he] at hf ⊢
                    simp only [List.cons_append, List.nil_append, List.length_cons] at hf
                    obtain ⟨f, rfl⟩ : ∃ f, fuel = f + 1 := ⟨fuel - 1, by omega⟩
                    simp [parseStrF, h34, h92, ih f rest (by omega)]

theorem parseStr_escStr (t : List Nat) (rest : List Nat) :
    parseStr (escStr t ++ 34 :: rest) = some (t, rest) := by
  exact parseStrF_escStr t _ rest le_rfl

theorem parseNat_natDec_comma (n : Nat) (X : List Nat) :
    parseNat (natDec n ++ 44 :: X) = some (n, 44 :: X) :=
  parseNat_natDec n 44 X rfl

theorem parseNat_natDec_brace (n : Nat) (X : List Nat) :
    parseNat (natDec n ++ 125 :: X) = some (n, 125 :: X) :=
  parseNat_natDec n 125 X rfl

/-- Tail of `litTimestamp` after its leading comma. -/
def litTimestampTail : List Nat := [34, 116, 105, 109, 101, 115, 116, 97, 109, 112, 34, 58]

/-- Tail of `litTopic` after its leading comma. -/
def litTopicTail : List Nat := [34, 116, 111, 112, 105, 99, 34, 58, 34]

/-- Tail of `litNamespace` after its leading comma. -/
def litNamespaceTail : List Nat := [34, 110, 97, 109, 101, 115, 112, 97, 99, 101, 34, 58, 34]

/-- Tail of `litPayloadLen` after its leading comma. -/
def litPayloadLenTail : List Nat :=
  [34, 112, 97, 121, 108, 111, 97, 100, 95, 108, 101, 110, 34, 58]

/-- Tail of `litPayloadCrc` after its leading comma. -/
def litPayloadCrcTail : List Nat :=
  [34, 112, 97, 121, 108, 111, 97, 100, 95, 99, 114, 99, 51, 50, 34, 58]

theorem dropLit_litTimestamp (X : List Nat) :
    dropLit litTimestamp (44 :: (litTimestampTail ++ X)) = some X :=
  dropLit_append litTimestamp X

theorem dropLit_litTopic (X : List Nat) :
    dropLit litTopic (44 :: (litTopicTail ++ X)) = some X :=
  dropLit_append litTopic X

theorem dropLit_litNamespace (X : List Nat) :
    dropLit litNamespace (44 :: (litNamespaceTail ++ X)) = some X :=
  dropLit_append litNamespace X

theorem dropLit_litPayloadLen (X : List Nat) :
    dropLit litPayloadLen (44 :: (litPayloadLenTail ++ X)) = some X :=
  dropLit_append litPayloadLen X

theorem dropLit_litPayloadCrc (X : List Nat) :
    dropLit litPayloadCrc (44 :: (litPayloadCrcTail ++ X)) = some X :=
  dropLit_append litPayloadCrc X

theorem dropLit_closeBrace (X : List Nat) :
    dropLit [125] (125 :: X) = some X :=
  dropLit_append [125] X

/-- The right-associated, comma-exposed shape of the metadata encoding that
the parser lemmas consume step by step. -/
theorem metaEncode_norm (f : RecordFrame) : metaEncode f
    = litMagic ++ (natDec f.magic ++ 44 :: (litTimestampTail
      ++ (natDec f.timestamp ++ 44 :: (litTopicTail
      ++ (escStr f.topic ++ 34 :: 44 :: (litNamespaceTail
      ++ (escStr f.nspace ++ 34 :: 44 :: (litPayloadLenTail
      ++ (natDec f.payload_len ++ 44 :: (litPayloadCrcTail
      ++ (natDec f.payload_crc32 ++ 125 :: []))))))))))) := by
  simp [metaEncode, litMagic, litTimestamp, litTimestampTail, litTopic, litTopicTail,
        litNamespace, litNamespaceTail, litPayloadLen, litPayloadLenTail,
        litPayloadCrc, litPayloadCrcTail]

theorem metaFromBytes_metaEncode (f : RecordFrame) :
    metaFromBytes (metaEncode f) = some f := by
  rw [metaEncode_norm]
  simp only [metaFromBytes, dropLit_append, dropLit_litTimestamp, dropLit_litTopic,
    dropLit_litNamespace, dropLit_litPayloadLen, dropLit_litPayloadCrc,
    dropLit_closeBrace, parseNat_natDec_comma, parseNat_natDec_brace, parseStr_escStr,
    if_true]

/-- Decoding a well-formed frame consumes exactly its bytes: writing a frame
whose CRC and payload length match the payload, followed by arbitrary
further stream content, decodes back to that frame, the identical payload,
and the untouched remainder. -/
theorem from_reader_to_bytes (f : RecordFrame) (payload rest : List Nat)
    (hm : f.magic = RECORD_FRAME_HEADER)
    (hlen : f.payload_len = payload.length)
    (hcrc : f.payload_crc32 = crc32 payload)
    (hmeta : (metaEncode f).length < 4294967296) :
    from_reader (f.to_bytes payload ++ rest) = .ok (some (f, payload, rest)) := by
  set meta := metaEncode f with hmeta_def
  have hassoc : f.to_bytes payload ++ rest
      = leBytes4 f.magic ++ (leBytes4 (meta.length % 4294967296)
        ++ (meta ++ (payload ++ rest))) := by
    simp [RecordFrame.to_bytes, List.append_assoc]
  rw [hassoc]
  set tail1 := leBytes4 (meta.length % 4294967296) ++ (meta ++ (payload ++ rest))
    with htail1
  have hlen_total : (leBytes4 f.magic ++ tail1).length = 4 + tail1.length := by
    simp [leBytes4]; omega
  have hnot4 : ¬ (leBytes4 f.magic ++ tail1).length < 4 := by omega
  have htake4 : (leBytes4 f.magic ++ tail1).take 4 = leBytes4 f.magic :=
    List.take_left' (leBytes4_length _)
  have hdrop4 : (leBytes4 f.magic ++ tail1).drop 4 = tail1 :=
    List.drop_left' (leBytes4_length _)
  have hmagic : leU32 (leBytes4 f.magic) = RECORD_FRAME_HEADER := by
    rw [leU32_leBytes4, hm]; decide
  have htail1len : tail1.length
      = 4 + (meta.length + (payload.length + rest.length)) := by
    simp [htail1, leBytes4]; omega
  have hnot4' : ¬ tail1.length < 4 := by omega
  have htake4' : tail1.take 4 = leBytes4 (meta.length % 4294967296) :=
    List.take_left' (leBytes4_length _)
  have hdrop4' : tail1.drop 4 = meta ++ (payload ++ rest) :=
    List.drop_left' (leBytes4_length _)
  have hmlen : leU32 (leBytes4 (meta.length % 4294967296)) = meta.length := by
    rw [leU32_leBytes4]; omega
  have hlen2 : (meta ++ (payload ++ rest)).length
      = meta.length + (payload.length + rest.length) := by simp
  have hnotm : ¬ (meta ++ (payload ++ rest)).length < meta.length := by omega
  have htakem : (meta ++ (payload ++ rest)).take meta.length = meta :=
    List.take_left _ _
  have hdropm : (meta ++ (payload ++ rest)).drop meta.length = payload ++ rest :=
    List.drop_left _ _
  have hmeta_parse : metaFromBytes meta = some f := metaFromBytes_metaEncode f
  have hlen3 : (payload ++ rest).length = payload.length + rest.length := by simp
  have hnotp : ¬ (payload ++ rest).length < f.payload_len := by
    rw [hlen]; omega
  have htakep : (payload ++ rest).take f.payload_len = payload := by
    rw [hlen]; exact List.take_left _ _
  have hdropp : (payload ++ rest).drop f.payload_len = rest := by
    rw [hlen]; exact List.drop_left _ _
  have hcrc_eq : ¬ crc32 payload ≠ f.payload_crc32 := by
    rw [hcrc]; exact fun h => h rfl
  simp only [from_reader, hnot4, if_false, htake4, hdrop4, hmagic, if_neg,
    hnot4', htake4', hdrop4', hmlen, hnotm, htakem, hdropm, hmeta_parse,
    hnotp, htakep, hdropp, hcrc_eq]
  simp [hcrc]

/-! ## Records and replay of frame concatenations -/

/-- An input record as passed to `Storage::append_record`: topic and
namespace string bytes, payload bytes, and the caller-supplied millisecond
timestamp. -/
structure Rec where
  topic : List Nat
  nspace : List Nat
  payload : List Nat
  ts : Nat
  deriving Repr, DecidableEq

/-- The frame `append_record` builds for a record. -/
def frameOf (r : Rec) : RecordFrame :=
  { magic := RECORD_FRAME_HEADER, timestamp := r.ts, topic := r.topic
    nspace := r.nspace, payload_len := r.payload.length % 4294967296
    payload_crc32 := crc32 r.payload }

/-- The encoded frame bytes `append_record` writes for a record. -/
def frameBytesOf (r : Rec) : List Nat :=
  (frameOf r).to_bytes r.payload

/-- The tuple `replay_segment` yields for a record. -/
def outOf (r : Rec) : OutRec :=
  (r.topic, r.nspace, r.ts, r.payload)

/-- Validity of a record for exact round-tripping: the `as u32` casts of the
payload length and of the metadata length must not truncate. Every record
whose payload and strings are below 4 GiB satisfies this. -/
def validRec (r : Rec) : Prop :=
  r.payload.length < 4294967296 ∧ (metaEncode (frameOf r)).length < 4294967296

instance (r : Rec) : Decidable (validRec r) := by
  unfold validRec; exact instDecidableAnd

/-- Concatenated frame bytes of a record sequence: the contents of a
well-formed segment file. -/
def frameConcat (rs : List Rec) : List Nat :=
  (rs.map frameBytesOf).flatten

theorem from_reader_frameBytesOf (r : Rec) (rest : List Nat) (hv : validRec r) :
    from_reader (frameBytesOf r ++ rest)
      = .ok (some (frameOf r, r.payload, rest)) := by
  apply from_reader_to_bytes
  · rfl
  · simpa [frameOf] using Nat.mod_eq_of_lt hv.1
  · rfl
  · exact hv.2

theorem frameBytesOf_length_ge (r : Rec) : 4 ≤ (frameBytesOf r).length := by
  simp [frameBytesOf, RecordFrame.to_bytes, leBytes4]

/-- A stream whose first four bytes are missing or are not the magic decodes
to `none` (clean end of the valid prefix). -/
theorem from_reader_none_of_tail (t : List Nat)
    (h : t.length < 4 ∨ leU32 (t.take 4) ≠ RECORD_FRAME_HEADER) :
    from_reader t = .ok none := by
  rcases h with h | h
  · simp [from_reader, h]
  · by_cases h4 : t.length < 4
    · simp [from_reader, h4]
    · simp [from_reader, h4, h]

/-- A successful frame decode consumes at least the four magic bytes. -/
theorem from_reader_consumes (s : List Nat) (f : RecordFrame) (p rest : List Nat)
    (h : from_reader s = .ok (some (f, p, rest))) : rest.length + 4 ≤ s.length := by
  unfold from_reader at h
  dsimp only at h
  split at h
  · simp at h
  · next h4 =>
    split at h
    · simp at h
    · split at h
      · simp at h
      · split at h
        · simp at h
        · split at h
          · simp at h
          · split at h
            · simp at h
            · split at h
              · simp at h
              · simp only [Except.ok.injEq, Option.some.injEq, Prod.mk.injEq] at h
                obtain ⟨hf, hp, hr⟩ := h
                subst hr
                simp only [List.length_drop]
                omega

/-- The replay loop is fuel-insensitive once the fuel exceeds the stream
length. -/
theorem replayAux_congr :
    ∀ (f1 : Nat) (f2 : Nat) (s : List Nat), s.length + 1 ≤ f1 →
      s.length + 1 ≤ f2 → replayAux f1 s = replayAux f2 s := by
  intro f1
  induction f1 with
  | zero => intro f2 s h1 _; omega
  | succ a ih =>
    intro f2 s h1 h2
    obtain ⟨b, rfl⟩ : ∃ b, f2 = b + 1 := ⟨f2 - 1, by omega⟩
    simp only [replayAux]
    cases hfr : from_reader s with
    | error e => rfl
    | ok v =>
      cases v with
      | none => rfl
      | some frp =>
        obtain ⟨f, p, rest⟩ := frp
        have hc := from_reader_consumes s f p rest hfr
        dsimp only
        rw [ih b rest (by omega) (by omega)]

/-- One unfolding step of the replay loop. -/
theorem replayAux_succ (fuel : Nat) (s : List Nat) :
    replayAux (fuel + 1) s = match from_reader s with
      | .error e => .error e
      | .ok none => .ok []
      | .ok (some (f, payload, rest)) =>
        match replayAux fuel rest with
        | .error e => .error e
        | .ok recs => .ok ((f.topic, f.nspace, f.timestamp, payload) :: recs) := rfl

/-- Replaying the concatenation of well-formed frames followed by a tail
that decodes to `none` yields exactly the records of those frames. -/
theorem replayAux_frameConcat (rs : List Rec) (t : List Nat)
    (hv : ∀ r ∈ rs, validRec r) (ht : from_reader t = .ok none) :
    ∀ fuel, (frameConcat rs ++ t).length + 1 ≤ fuel →
      replayAux fuel (frameConcat rs ++ t) = .ok (rs.map outOf) := by
  induction rs with
  | nil =>
    intro fuel hf
    simp only [frameConcat, List.map_nil, List.flatten_nil, List.nil_append] at hf ⊢
    obtain ⟨a, rfl⟩ : ∃ a, fuel = a + 1 := ⟨fuel - 1, by omega⟩
    simp [replayAux, ht]
  | cons r rs ih =>
    intro fuel hf
    have hsplit : frameConcat (r :: rs) ++ t
        = frameBytesOf r ++ (frameConcat rs ++ t) := by
      simp [frameConcat, List.append_assoc]
    rw [hsplit] at hf ⊢
    obtain ⟨a, rfl⟩ : ∃ a, fuel = a + 1 := ⟨fuel - 1, by omega⟩
    have hfr := from_reader_frameBytesOf r (frameConcat rs ++ t)
      (hv r (by simp))
    have hlen : (frameBytesOf r ++ (frameConcat rs ++ t)).length
        = (frameBytesOf r).length + (frameConcat rs ++ t).length := by simp
    have hge := frameBytesOf_length_ge r
    rw [replayAux_succ, hfr]
    dsimp only
    rw [ih (fun x hx => hv x (by simp [hx])) a (by omega)]
    simp [outOf, frameOf]

/-- `replay_segment` of well-formed frames plus a non-frame tail. -/
theorem replay_segment_frameConcat (rs : List Rec) (t : List Nat)
    (hv : ∀ r ∈ rs, validRec r) (ht : from_reader t = .ok none) :
    replay_segment (frameConcat rs ++ t) = .ok (rs.map outOf) :=
  replayAux_frameConcat rs t hv ht _ le_rfl

/-- `replay_segment` of an exactly well-formed segment. -/
theorem replay_segment_frames (rs : List Rec) (hv : ∀ r ∈ rs, validRec r) :
    replay_segment (frameConcat rs) = .ok (rs.map outOf) := by
  have := replay_segment_frameConcat rs [] hv rfl
  simpa using this

/-! ## The append/replay round trip (storage invariant) -/

/-- Append one record (`now` fixed to 0; it only enters the checkpoint
timestamp, which replay never reads). -/
def appendRec (st : Storage) (r : Rec) : Storage :=
  append_record st r.topic r.nspace r.payload r.ts 0

/-- Append a sequence of records in order, as the ingest path does. -/
def appendAll (rs : List Rec) (st : Storage) : Storage :=
  rs.foldl appendRec st

/-- Append a record to the last block of a nonempty block list. -/
def appendLast (bs : List (List Rec)) (r : Rec) : List (List Rec) :=
  match bs with
  | [] => [[r]]
  | [x] => [x ++ [r]]
  | x :: xs => x :: appendLast xs r

/-- The per-segment record blocks after one more append: a new singleton
block when the size trip rotates, otherwise the record joins the last
block. -/
def stepBlocks (st : Storage) (bs : List (List Rec)) (r : Rec) : List (List Rec) :=
  if st.current_segment_size + r.payload.length + 100 > MAX_SEGMENT_SIZE then
    bs ++ [[r]]
  else appendLast bs r

/-- Blocks after appending a whole sequence. -/
def appendAllBlocks : List Rec → Storage → List (List Rec) → List (List Rec)
  | [], _, bs => bs
  | r :: rs, st, bs => appendAllBlocks rs (appendRec st r) (stepBlocks st bs r)

/-- Segment-contents invariant: one block of records per segment file, in
segment order, the current segment being the last block; every other file is
empty. -/
def SegInv (st : Storage) (bs : List (List Rec)) : Prop :=
  st.current_segment + 1 = bs.length ∧
  ∀ i, st.files i = frameConcat (bs.getD i [])

theorem appendLast_length (bs : List (List Rec)) (r : Rec) (h : bs ≠ []) :
    (appendLast bs r).length = bs.length := by
  induction bs with
  | nil => simp at h
  | cons x xs ih =>
    cases xs with
    | nil => simp [appendLast]
    | cons y ys => simp [appendLast]; simpa [appendLast] using ih (by simp)

theorem appendLast_flatten (bs : List (List Rec)) (r : Rec) (h : bs ≠ []) :
    (appendLast bs r).flatten = bs.flatten ++ [r] := by
  induction bs with
  | nil => simp at h
  | cons x xs ih =>
    cases xs with
    | nil => simp [appendLast]
    | cons y ys =>
      simp only [appendLast, List.flatten_cons]
      rw [ih (by simp)]
      simp [List.append_assoc]

theorem appendLast_getD_last (bs : List (List Rec)) (r : Rec) (h : bs ≠ []) :
    (appendLast bs r).getD (bs.length - 1) [] = bs.getD (bs.length - 1) [] ++ [r] := by
  induction bs with
  | nil => simp at h
  | cons x xs ih =>
    cases xs with
    | nil => simp [appendLast]
    | cons y ys =>
      have hne : (y :: ys : List (List Rec)) ≠ [] := by simp
      simp only [appendLast, List.length_cons]
      have hlen : (y :: ys : List (List Rec)).length - 1 + 1 - 1
          = (y :: ys : List (List Rec)).length - 1 + 0 := by simp
      simp only [List.getD_cons_succ, Nat.add_sub_cancel]
      exact ih hne

theorem appendLast_getD_ne (bs : List (List Rec)) (r : Rec) :
    ∀ i, i ≠ bs.length - 1 → (appendLast bs r).getD i [] = bs.getD i [] := by
  induction bs with
  | nil =>
    intro i hi
    match i, hi with
    | i + 1, _ => simp [appendLast]
  | cons x xs ih =>
    intro i hi
    cases xs with
    | nil =>
      simp only [List.length_cons, List.length_nil] at hi
      match i, hi with
      | i + 1, _ => simp [appendLast]
    | cons y ys =>
      match i with
      | 0 => simp [appendLast]
      | i + 1 =>
        simp only [List.length_cons] at hi
        simp only [appendLast, List.getD_cons_succ]
        exact ih i (by simpa using hi)

theorem frameConcat_append (a b : List Rec) :
    frameConcat (a ++ b) = frameConcat a ++ frameConcat b := by
  simp [frameConcat]

theorem stepBlocks_flatten (st : Storage) (bs : List (List Rec)) (r : Rec)
    (h : bs ≠ []) : (stepBlocks st bs r).flatten = bs.flatten ++ [r] := by
  unfold stepBlocks
  split
  · simp
  · exact appendLast_flatten bs r h

/-- One `append_record` preserves the segment-contents invariant, the new
record landing in a fresh block exactly when the size trip rotates. -/
theorem appendRec_SegInv (st : Storage) (bs : List (List Rec)) (r : Rec)
    (hinv : SegInv st bs) : SegInv (appendRec st r) (stepBlocks st bs r) := by
  obtain ⟨hlen, hfiles⟩ := hinv
  have hne : bs ≠ [] := by
    intro h; subst h; simp at hlen
  unfold appendRec append_record stepBlocks
  split
  · -- rotation: the new record goes to the fresh segment
    next hcond =>
    dsimp only [rotate_segment]
    constructor
    · simp; omega
    · intro i
      by_cases hi : i = st.current_segment + 1
      · subst hi
        simp only [if_pos rfl]
        have : bs.getD (st.current_segment + 1) [] = [] :=
          List.getD_eq_default bs [] (by omega)
        rw [List.getD_append_right bs [[r]] [] _ (by omega)]
        have hz : st.current_segment + 1 - bs.length = 0 := by omega
        rw [hz]
        simp [frameConcat, frameBytesOf, frameOf]
      · simp only [if_neg hi]
        by_cases hlt : i < bs.length
        · rw [List.getD_append bs [[r]] [] _ hlt]
          exact hfiles i
        · rw [List.getD_append_right bs [[r]] [] _ (by omega)]
          have hz : ¬ i - bs.length < 1 := by omega
          have h1 : ([[r]] : List (List Rec)).getD (i - bs.length) [] = [] :=
            List.getD_eq_default _ [] (by simp; omega)
          rw [h1]
          have h2 : bs.getD i [] = [] := List.getD_eq_default bs [] (by omega)
          have := hfiles i
          rw [h2] at this
          simpa [frameConcat] using this
  · -- no rotation: the record joins the current block
    next hcond =>
    constructor
    · rw [appendLast_length bs r hne]; exact hlen
    · intro i
      by_cases hi : i = st.current_segment
      · subst hi
        simp only [if_pos rfl]
        have hcs : st.current_segment = bs.length - 1 := by omega
        rw [hcs, appendLast_getD_last bs r hne]
        rw [frameConcat_append]
        rw [← hcs, hfiles st.current_segment]
        simp [hcs, frameConcat, frameBytesOf, frameOf]
      · simp only [if_neg hi]
        rw [appendLast_getD_ne bs r i (by omega)]
        exact hfiles i

/-- Appending a whole sequence preserves the invariant, and the blocks
flatten to the previously appended records followed by the new ones. -/
theorem appendAll_SegInv (rs : List Rec) : ∀ (st : Storage) (bs : List (List Rec)),
    SegInv st bs →
    SegInv (appendAll rs st) (appendAllBlocks rs st bs) ∧
      (appendAllBlocks rs st bs).flatten = bs.flatten ++ rs := by
  induction rs with
  | nil =>
    intro st bs hinv
    exact ⟨by simpa [appendAll, appendAllBlocks] using hinv, by simp [appendAllBlocks]⟩
  | cons r rs ih =>
    intro st bs hinv
    have hne : bs ≠ [] := by
      have := hinv.1; intro h; subst h; simp at this
    have h1 := appendRec_SegInv st bs r hinv
    obtain ⟨ha, hb⟩ := ih (appendRec st r) (stepBlocks st bs r) h1
    refine ⟨by simpa [appendAll, appendAllBlocks] using ha, ?_⟩
    show (appendAllBlocks rs (appendRec st r) (stepBlocks st bs r)).flatten = _
    rw [hb, stepBlocks_flatten st bs r hne]
    simp [List.append_assoc]

/-- Replay a list of segment contents in order, concatenating the results
and propagating the first error. -/
def replaySegs : List (List Nat) → Except DecodeErr (List OutRec)
  | [] => .ok []
  | s :: rest =>
    match replay_segment s with
    | .error e => .error e
    | .ok a =>
      match replaySegs rest with
      | .error e => .error e
      | .ok b => .ok (a ++ b)

/-- Replay the segments `segment-0.log .. segment-{current_segment}.log` of
a store in numeric order. -/
def replayAll (st : Storage) : Except DecodeErr (List OutRec) :=
  replaySegs ((List.range (st.current_segment + 1)).map st.files)

theorem replaySegs_frameConcats (bs : List (List Rec))
    (hv : ∀ blk ∈ bs, ∀ r ∈ blk, validRec r) :
    replaySegs (bs.map frameConcat)
      = .ok ((bs.map (fun blk => blk.map outOf)).flatten) := by
  induction bs with
  | nil => rfl
  | cons blk bs ih =>
    simp only [List.map_cons, replaySegs]
    rw [replay_segment_frames blk (hv blk (by simp))]
    rw [ih (fun b hb r hr => hv b (by simp [hb]) r hr)]
    simp

theorem range_map_eq_map_frameConcat (g : Nat → List Nat) (bs : List (List Rec))
    (h : ∀ i, g i = frameConcat (bs.getD i [])) :
    (List.range bs.length).map g = bs.map frameConcat := by
  apply List.ext_getElem
  · simp
  · intro i h1 h2
    simp only [List.getElem_map, List.getElem_range]
    rw [h i]
    congr 1
    exact List.getD_eq_getElem bs [] (by simpa using h2)

/-- The full round trip: appending any sequence of valid records to a fresh
root and replaying all segments in numeric order recovers exactly that
sequence. -/
theorem replayAll_appendAll (rs : List Rec) (hv : ∀ r ∈ rs, validRec r) :
    replayAll (appendAll rs freshStorage) = .ok (rs.map outOf) := by
  have hinv0 : SegInv freshStorage [[]] := by
    refine ⟨by simp [freshStorage], ?_⟩
    intro i
    match i with
    | 0 => simp [freshStorage, frameConcat]
    | i + 1 => simp [freshStorage, frameConcat]
  obtain ⟨⟨hlen, hfiles⟩, hflat⟩ := appendAll_SegInv rs freshStorage [[]] hinv0
  have hflat' : (appendAllBlocks rs freshStorage [[]]).flatten = rs := by
    simpa using hflat
  have hv' : ∀ blk ∈ appendAllBlocks rs freshStorage [[]], ∀ r ∈ blk, validRec r := by
    intro blk hblk r hr
    apply hv
    rw [← hflat']
    exact List.mem_flatten.mpr ⟨blk, hblk, hr⟩
  unfold replayAll
  rw [hlen, range_map_eq_map_frameConcat _ _ hfiles,
    replaySegs_frameConcats _ hv']
  have : ((appendAllBlocks rs freshStorage [[]]).map
      (fun blk => blk.map outOf)).flatten = rs.map outOf := by
    rw [← List.map_flatten, hflat']
  rw [this]

/-! ## Claim theorems -/

/-- C9: across every interleaving of `append_record` and `rotate_segment`
calls on one log store, `current_segment` never decreases, and every
`rotate_segment` call increases `current_segment` by exactly 1. -/
theorem c9_monotonic_segment_index :
    (∀ (ops : List StorageOp) (st : Storage),
      st.current_segment ≤ (runOps ops st).current_segment) ∧
    (∀ (now : Nat) (st : Storage),
      (rotate_segment now st).current_segment = st.current_segment + 1) := by
  constructor
  · intro ops
    induction ops with
    | nil => intro st; simp [runOps]
    | cons op ops ih =>
      intro st
      have hstep : st.current_segment ≤ (runOp st op).current_segment := by
        cases op with
        | append t n p ts now =>
          simp only [runOp, append_record]
          split
          · simp [rotate_segment]
          · simp
        | rotate now => simp [runOp, rotate_segment]
      have hops : runOps (op :: ops) st = runOps ops (runOp st op) := rfl
      rw [hops]
      exact le_trans hstep (ih (runOp st op))
  · intro now st; rfl

/-- C2: for every sequence of records appended in order via `append_record`
(with non-truncating `u32` casts), replaying the resulting segments in
numeric segment order yields exactly the same sequence of
`(topic, namespace, timestamp, payload)` tuples, byte-identical. -/
theorem c2_roundtrip (rs : List Rec) (hv : ∀ r ∈ rs, validRec r) :
    replayAll (appendAll rs freshStorage) = .ok (rs.map outOf) :=
  replayAll_appendAll rs hv

/-- A two-record ingest used as the concrete round-trip witness
(scenario S1 of the spec: `("a","r1",b"hello",1000)` then
`("b","r1",b"world",1001)`). -/
def demoRec1 : Rec :=
  { topic := [97], nspace := [114, 49], payload := [104, 101, 108, 108, 111]
    ts := 1000 }

/-- Second record of the round-trip witness. -/
def demoRec2 : Rec :=
  { topic := [98], nspace := [114, 49], payload := [119, 111, 114, 108, 100]
    ts := 1001 }

/-- Witness for C2 at the two concrete records of scenario S1. -/
theorem c2_roundtrip_witness :
    (∀ r ∈ [demoRec1, demoRec2], validRec r) ∧
    replayAll (appendAll [demoRec1, demoRec2] freshStorage)
      = .ok ([demoRec1, demoRec2].map outOf) :=
  ⟨by decide, c2_roundtrip [demoRec1, demoRec2] (by decide)⟩

/-- C5 counterexample: with `current_segment_size = MAX_SEGMENT_SIZE - 100`
and an empty payload, the full-frame projection
`current_segment_size + len(frame_bytes) + 100` exceeds the bound (the
encoded frame is about 101 bytes), yet `append_record` does not rotate —
the code projects with the payload length, not the frame length. -/
theorem c5_counterexample :
    MAX_SEGMENT_SIZE <
      (MAX_SEGMENT_SIZE - 100)
        + (frameBytesOf { topic := [116], nspace := [110], payload := [], ts := 0 }).length
        + 100 ∧
    (append_record
        { current_segment := 0, current_segment_size := MAX_SEGMENT_SIZE - 100
          files := fun _ => [], checkpoint := none }
        [116] [110] [] 0 0).current_segment = 0 := by
  constructor
  · decide
  · decide

/-- C5 amended: on every append the rotation decision is
`current_segment_size + len(payload) + 100 > MAX_SEGMENT_SIZE` — the
payload length, not the full encoded frame length — and `MAX_SEGMENT_SIZE`
is 16 MiB. -/
theorem c5_projected_payload :
    (∀ (st : Storage) (t n p : List Nat) (ts now : Nat),
      (append_record st t n p ts now).current_segment
        = (if st.current_segment_size + p.length + 100 > MAX_SEGMENT_SIZE
           then st.current_segment + 1 else st.current_segment)) ∧
    MAX_SEGMENT_SIZE = 16777216 := by
  constructor
  · intro st t n p ts now
    unfold append_record
    split
    · simp [rotate_segment]
    · simp
  · rfl

/-- An oversized payload: one byte more than the segment bound. -/
def hugePayload : List Nat := List.replicate (MAX_SEGMENT_SIZE + 1) 0

/-- C4 counterexample: a record whose encoded frame exceeds
`MAX_SEGMENT_SIZE` is not rejected — `append_record` has no
`RecordTooLarge` path at all (it is total in the model); it rotates to a
fresh segment (`current_segment` goes 0 to 1) and appends the oversized
frame there. -/
theorem c4_counterexample :
    MAX_SEGMENT_SIZE <
      (frameBytesOf
        { topic := [116], nspace := [110], payload := hugePayload, ts := 0 }).length ∧
    (append_record freshStorage [116] [110] hugePayload 0 0).current_segment = 1 := by
  constructor
  · have h : (frameBytesOf
        { topic := [116], nspace := [110], payload := hugePayload, ts := 0 }).length
        = 4 + (4 + ((metaEncode (frameOf
            { topic := [116], nspace := [110], payload := hugePayload, ts := 0 })).length
          + hugePayload.length)) := by
      simp only [frameBytesOf, RecordFrame.to_bytes, List.length_append,
        leBytes4_length]
      omega
    rw [h]
    have : hugePayload.length = MAX_SEGMENT_SIZE + 1 := by
      simp [hugePayload]
    omega
  · have hlen : hugePayload.length = MAX_SEGMENT_SIZE + 1 := by
      simp [hugePayload]
    have hcond : freshStorage.current_segment_size + hugePayload.length + 100
        > MAX_SEGMENT_SIZE := by
      omega
    unfold append_record
    rw [if_pos hcond]
    rfl

/-- C4 amended: `append_record` never fails with `RecordTooLarge` (it is
total); whenever the projected size trips the bound — in particular for
every oversized record — it rotates (`current_segment + 1`) and writes the
whole frame into the fresh `segment-{current_segment+1}.log`. -/
theorem c4_oversized_rotates (st : Storage) (t n p : List Nat) (ts now : Nat)
    (h : st.current_segment_size + p.length + 100 > MAX_SEGMENT_SIZE) :
    (append_record st t n p ts now).current_segment = st.current_segment + 1 ∧
    (append_record st t n p ts now).files (st.current_segment + 1)
      = frameBytesOf { topic := t, nspace := n, payload := p, ts := ts } := by
  unfold append_record
  rw [if_pos h]
  refine ⟨rfl, ?_⟩
  simp [rotate_segment, frameBytesOf, frameOf]

/-- A store whose size counter sits exactly at the bound. -/
def fullStorage : Storage :=
  { current_segment := 0, current_segment_size := MAX_SEGMENT_SIZE
    files := fun _ => [], checkpoint := none }

/-- Witness for C4 amended at a concrete tripping append. -/
theorem c4_oversized_rotates_witness :
    (fullStorage.current_segment_size + ([] : List Nat).length + 100
      > MAX_SEGMENT_SIZE) ∧
    ((append_record fullStorage [116] [110] [] 5 6).current_segment
        = fullStorage.current_segment + 1 ∧
      (append_record fullStorage [116] [110] [] 5 6).files
          (fullStorage.current_segment + 1)
        = frameBytesOf { topic := [116], nspace := [110], payload := [], ts := 5 }) :=
  ⟨by decide, c4_oversized_rotates fullStorage [116] [110] [] 5 6 (by decide)⟩

/-- A one-record segment used in the tail counterexample. -/
def demoSeg : List Nat := frameConcat [demoRec1]

/-- Four tail bytes that happen to form the little-endian magic
`0xDEADBEEF`. -/
def demoMagicTail : List Nat := [239, 190, 173, 222]

/-- C8 counterexample: appending four arbitrary bytes that happen to spell
the magic after the last complete frame changes the result of
`replay_segment` from the one-record prefix to a `TruncatedFrame`-style
error, so the claim's "arbitrary ... bytes" is too strong. -/
theorem c8_counterexample :
    replay_segment demoSeg = .ok [outOf demoRec1] ∧
    replay_segment (demoSeg ++ demoMagicTail) = .error .truncatedLen := by
  constructor
  · decide
  · decide

/-- C8 amended: `decode_one` returns `None` whenever the next 4 bytes are
not the magic `0xDEADBEEF` (or fewer than 4 bytes remain), and
consequently appending a tail whose first 4 bytes are not the magic — in
particular zero bytes — after the last complete frame of a segment does
not change the sequence of records `replay_segment` returns. -/
theorem c8_magic_guard_tail (rs : List Rec) (tail : List Nat)
    (hv : ∀ r ∈ rs, validRec r)
    (ht : tail.length < 4 ∨ leU32 (tail.take 4) ≠ RECORD_FRAME_HEADER) :
    replay_segment (frameConcat rs ++ tail) = .ok (rs.map outOf) :=
  replay_segment_frameConcat rs tail hv (from_reader_none_of_tail tail ht)

/-- Witness for C8 amended: one record followed by five zero bytes. -/
theorem c8_magic_guard_tail_witness :
    ((∀ r ∈ [demoRec1], validRec r) ∧
      (([0, 0, 0, 0, 0] : List Nat).length < 4 ∨
        leU32 (([0, 0, 0, 0, 0] : List Nat).take 4) ≠ RECORD_FRAME_HEADER)) ∧
    replay_segment (frameConcat [demoRec1] ++ [0, 0, 0, 0, 0])
      = .ok ([demoRec1].map outOf) :=
  ⟨⟨by decide, by decide⟩,
    c8_magic_guard_tail [demoRec1] [0, 0, 0, 0, 0] (by decide) (by decide)⟩

/-- A complete frame whose stored payload CRC (0) disagrees with the CRC of
its one-byte payload. -/
def badCrcFrame : RecordFrame :=
  { magic := RECORD_FRAME_HEADER, timestamp := 0, topic := [116], nspace := [110]
    payload_len := 1, payload_crc32 := 0 }

/-- The bytes of the bad-CRC frame: a complete frame, nothing truncated. -/
def badCrcBytes : List Nat := badCrcFrame.to_bytes [97]

/-- C10 counterexample: a stream holding one complete frame — every read
succeeds, no short read anywhere — still makes `replay_segment` return an
error, namely the payload-CRC mismatch; so short reads after the magic are
not the only error source. -/
theorem c10_counterexample :
    replay_segment badCrcBytes = .error (.crcMismatch 0 3904355907) ∧
    (DecodeErr.crcMismatch 0 3904355907 ≠ .truncatedLen ∧
      DecodeErr.crcMismatch 0 3904355907 ≠ .truncatedMeta ∧
      DecodeErr.crcMismatch 0 3904355907 ≠ .truncatedPayload) := by
  constructor
  · decide
  · decide

/-- C10 amended: `decode_one` treats any failure to read the initial 4
magic bytes — 0 to 3 leftover bytes included — as end of stream and
returns `None` rather than an error, likewise a non-magic word; every
decode error arises only after a valid magic word (a short read in the
length, metadata or payload, a metadata decode failure, or a CRC
mismatch), a short read in the length field erroring with
`TruncatedFrame`. -/
theorem c10_magic_read_eof :
    (∀ s : List Nat, s.length < 4 → from_reader s = .ok none) ∧
    (∀ s : List Nat, leU32 (s.take 4) ≠ RECORD_FRAME_HEADER →
      from_reader s = .ok none) ∧
    (∀ (s : List Nat) (e : DecodeErr), from_reader s = .error e →
      4 ≤ s.length ∧ leU32 (s.take 4) = RECORD_FRAME_HEADER) ∧
    (∀ s : List Nat, 4 ≤ s.length → s.length < 8 →
      leU32 (s.take 4) = RECORD_FRAME_HEADER →
      from_reader s = .error .truncatedLen) := by
  refine ⟨?_, ?_, ?_, ?_⟩
  · intro s h
    simp [from_reader, h]
  · intro s h
    exact from_reader_none_of_tail s (Or.inr h)
  · intro s e h
    by_cases h4 : s.length < 4
    · simp [from_reader, h4] at h
    · by_cases hmg : leU32 (s.take 4) = RECORD_FRAME_HEADER
      · exact ⟨by omega, hmg⟩
      · rw [from_reader_none_of_tail s (Or.inr hmg)] at h
        simp at h
  · intro s h4 h8 hmg
    have hn4 : ¬ s.length < 4 := by omega
    have hlt : s.length - 4 < 4 := by omega
    simp [from_reader, hn4, hmg, hlt]

/-- Witness for C10 amended at concrete streams: a 3-byte tail, a zero
word, the complete bad-CRC frame, and a magic word with one trailing
byte. -/
theorem c10_magic_read_eof_witness :
    from_reader [1, 2, 3] = .ok none ∧
    from_reader [0, 0, 0, 0, 7] = .ok none ∧
    (4 ≤ badCrcBytes.length ∧
      leU32 (badCrcBytes.take 4) = RECORD_FRAME_HEADER) ∧
    from_reader [239, 190, 173, 222, 1] = .error .truncatedLen :=
  ⟨c10_magic_read_eof.1 [1, 2, 3] (by decide),
   c10_magic_read_eof.2.1 [0, 0, 0, 0, 7] (by decide),
   c10_magic_read_eof.2.2.1 badCrcBytes (.crcMismatch 0 3904355907) (by decide),
   c10_magic_read_eof.2.2.2 [239, 190, 173, 222, 1] (by decide) (by decide) (by decide)⟩

/-- The state of a fresh log root after exactly one `rotate_segment` call
(checkpoint written at timestamp 1234). Its `.checkpoint` holds
`current_segment = 0`: `rotate_segment` writes the pre-increment index. -/
def rotatedOnce : Storage := rotate_segment 1234 freshStorage

/-- C1: the code-level behaviour at the claim's failing input. After one
rotation of a fresh root, constructing a new log store over the same root
recovers `current_segment = 0` — not 1, the post-rotation index the claim
and the spec's checkpoint semantics require — and the next `append_record`
writes its frame into `segment-0.log` (the rotated-out segment), leaving
`segment-1.log` empty. `recover_checkpoint` returns the checkpointed index
unshifted while `rotate_segment` checkpoints the pre-increment index, so
recovery re-opens a closed segment. -/
theorem c1_recovery_off_by_one :
    rotatedOnce.checkpoint = some (checkpointBytes 0 1234) ∧
    (storageNew rotatedOnce.checkpoint rotatedOnce.files).map
        (fun s => s.current_segment) = .ok 0 ∧
    (storageNew rotatedOnce.checkpoint rotatedOnce.files).map
        (fun s => (append_record s [97] [114] [104] 5 6).files 0)
      = .ok (frameBytesOf { topic := [97], nspace := [114], payload := [104], ts := 5 }) ∧
    (storageNew rotatedOnce.checkpoint rotatedOnce.files).map
        (fun s => (append_record s [97] [114] [104] 5 6).files 1) = .ok [] := by
  refine ⟨?_, ?_, ?_, ?_⟩
  · decide
  · decide
  · decide
  · decide

/-- The ASCII bytes of the text `garbage` — not JSON. -/
def garbageBytes : List Nat := [103, 97, 114, 98, 97, 103, 101]

/-- C7 counterexample: with `.checkpoint` present but holding unparseable
content, log-store construction returns an error rather than degrading to
`current_segment = 0` — the `?` on `serde_json::from_str` propagates out of
`Storage::new`. -/
theorem c7_counterexample :
    storageNew (some garbageBytes) (fun _ => []) = .error () := by
  rfl

/-- C7 amended: when `.checkpoint` exists but is not parseable,
construction fails with the parse error; recovery degrades to
`current_segment = 0` only when the file is absent, or when it parses as
JSON that lacks a `current_segment` entry. -/
theorem c7_checkpoint_recovery :
    (∀ (bytes : List Nat) (files : Nat → List Nat), parseCkTop bytes = none →
      storageNew (some bytes) files = .error ()) ∧
    (∀ files : Nat → List Nat,
      (storageNew none files).map (fun s => s.current_segment) = .ok 0) ∧
    (∀ (bytes : List Nat) (kvs : List (List Nat × Nat)) (files : Nat → List Nat),
      parseCkTop bytes = some (.obj kvs) →
      ckLookup kvs keyCurrentSegment = none →
      (storageNew (some bytes) files).map (fun s => s.current_segment) = .ok 0) := by
  refine ⟨?_, ?_, ?_⟩
  · intro bytes files h
    simp [storageNew, recover_checkpoint, h, Except.map]
  · intro files
    rfl
  · intro bytes kvs files hp hl
    simp [storageNew, recover_checkpoint, hp, hl, Except.map]

/-- The ASCII bytes of the JSON text for a checkpoint object holding only
`timestamp: 5` (valid JSON, no `current_segment` key). -/
def noFieldCkBytes : List Nat := [123] ++ litTimestampTail ++ [53, 125]

/-- Witness for C7 amended: garbage content errors, an absent checkpoint
recovers 0, and a parseable checkpoint without `current_segment` recovers
0. -/
theorem c7_checkpoint_recovery_witness :
    storageNew (some garbageBytes) (fun _ => []) = .error () ∧
    (storageNew none (fun _ => [])).map (fun s => s.current_segment) = .ok 0 ∧
    (storageNew (some noFieldCkBytes) (fun _ => [])).map
        (fun s => s.current_segment) = .ok 0 :=
  ⟨c7_checkpoint_recovery.1 garbageBytes (fun _ => []) (by decide),
   c7_checkpoint_recovery.2.1 (fun _ => []),
   c7_checkpoint_recovery.2.2 noFieldCkBytes
     [([116, 105, 109, 101, 115, 116, 97, 109, 112], 5)] (fun _ => [])
     (by decide) (by decide)⟩

/-- A queued upload item whose segment path reads fail in the
counterexample file system. -/
def demoUpload : UploadState :=
  { segment_path := [115, 101, 103], segment_sha256 := []
    chunks_uploaded := [], timestamp := 0 }

/-- C3 counterexample: when reading the head's segment file fails, the
head has already been removed by `queue.remove(0)` and is dropped — the
queue comes back empty, not with the head retained, and no chunk progress
is recorded anywhere. -/
theorem c3_counterexample :
    process_next_upload (fun _ => none) 4 [demoUpload] = (.error (), [], 0) ∧
    ([] : List UploadState) ≠ [demoUpload] := by
  constructor
  · rfl
  · decide

/-- C3 amended: `process_next_upload` removes the head from the queue
before any I/O; on a failing segment read the head is gone (not retained)
and `chunks_uploaded` is never consulted or updated; on a successful read
it uploads every chunk of the segment — `(chunksOf chunk_size data).length`
uploads regardless of any previously recorded progress — and still removes
the head. -/
theorem c3_head_dropped_on_failure (fsread : List Nat → Option (List Nat))
    (chunk_size : Nat) (s : UploadState) (rest : List UploadState) :
    (fsread s.segment_path = none →
      process_next_upload fsread chunk_size (s :: rest) = (.error (), rest, 0)) ∧
    (∀ data, fsread s.segment_path = some data →
      process_next_upload fsread chunk_size (s :: rest)
        = (.ok (), rest, (chunksOf chunk_size data).length)) := by
  have huploadAll : ∀ (cs : List (List Nat)) (k : Nat),
      uploadAll cs k = .ok (k + cs.length) := by
    intro cs
    induction cs with
    | nil => intro k; simp [uploadAll]
    | cons c cs ih =>
      intro k
      simp only [uploadAll, mock_upload_chunk, ih (k + 1), List.length_cons]
      congr 1
      omega
  constructor
  · intro h
    simp [process_next_upload, h]
  · intro data h
    simp [process_next_upload, h, huploadAll (chunksOf chunk_size data) 0]

/-- Witness for C3 amended: a failing read drops the single queued item; a
succeeding read uploads both chunks of a five-byte segment and also drops
the item. -/
theorem c3_head_dropped_on_failure_witness :
    process_next_upload (fun _ => none) 4 [demoUpload] = (.error (), [], 0) ∧
    process_next_upload (fun _ => some [1, 2, 3, 4, 5]) 4 [demoUpload]
      = (.ok (), [], (chunksOf 4 [1, 2, 3, 4, 5]).length) :=
  ⟨(c3_head_dropped_on_failure (fun _ => none) 4 demoUpload []).1 rfl,
   (c3_head_dropped_on_failure (fun _ => some [1, 2, 3, 4, 5]) 4 demoUpload []).2
     [1, 2, 3, 4, 5] rfl⟩

/-- The `SyncStatus` a fresh `SyncDaemon::new` starts with. -/
def initSyncStatus : SyncStatus :=
  { is_syncing := false, last_sync_time := none
    upload_errors := 0, total_segments_synced := 0 }

/-- C6 counterexample: with the full retry budget of 7, the computed
backoff is `2_u64.min(7 * 2).min(120) = 2` seconds, not the claimed
`min(2 * 7, 120) = 14`; a failing loop iteration sleeps 2 seconds. -/
theorem c6_counterexample :
    backoff_secs 7 = 2 ∧
    (2 : Nat) ≠ 14 ∧
    (sync_step (fun _ => none) 4 0 [demoUpload] initSyncStatus 7).2.2.2 = 2 := by
  refine ⟨?_, ?_, ?_⟩
  · decide
  · decide
  · rfl

/-- C6 amended: after every transient upload failure the daemon sleeps
`min(min(2, retry_budget * 2), 120)` seconds — the constant 2 is the
receiver of the first `min` — which is exactly 2 seconds for every positive
budget, in particular for the full budget of 7. -/
theorem c6_backoff_is_two (fsread : List Nat → Option (List Nat))
    (chunk_size now : Nat) (s : UploadState) (rest : List UploadState)
    (status : SyncStatus) (m : Nat) (hm : 1 ≤ m)
    (hfail : fsread s.segment_path = none) :
    backoff_secs m = 2 ∧
    (sync_step fsread chunk_size now (s :: rest) status m).2.2.2
      = backoff_secs m := by
  have hb : backoff_secs m = 2 := by
    unfold backoff_secs
    omega
  refine ⟨hb, ?_⟩
  unfold sync_step
  rw [if_neg (by simp)]
  simp [process_next_upload, hfail]

/-- Witness for C6 amended at the full budget of 7 and a failing read. -/
theorem c6_backoff_is_two_witness :
    (1 ≤ 7 ∧ (fun _ : List Nat => (none : Option (List Nat)))
        demoUpload.segment_path = none) ∧
    (backoff_secs 7 = 2 ∧
      (sync_step (fun _ => none) 4 0 [demoUpload] initSyncStatus 7).2.2.2
        = backoff_secs 7) :=
  ⟨⟨by decide, rfl⟩,
   c6_backoff_is_two (fun _ => none) 4 0 demoUpload [] initSyncStatus 7
     (by decide) rfl⟩
